import Mathlib

/-!
Verification of the streaming core of pdftopng-rs against its design
specification.

The embedding models, from `src/ollama.rs` and `src/main.rs`:

* the data model of the Ollama chat-streaming protocol (`Role`,
  `ChatMessage`, `OllamaResponse`);
* the incremental newline-delimited-JSON stream decoder of
  `OllamaClient::generate_stream` (per-chunk `String::from_utf8_lossy`
  conversion, newline scanning, per-line trim + parse-or-drop, buffered
  unterminated tail, final tail parse at end of stream);
* the per-page job loop spawned in `main` (delta accumulation, byte-length
  token counting, strict greater-than budget check, early break);
* endpoint-URL parsing (`split_once('@')` + `parse::<usize>()`), the
  flattened round-robin endpoint pool and its positional assignment;
* the page-range validation performed before the dispatch loop.

Strings are modelled as `List Char`, byte streams as `List Nat` (each
element one byte).  JSON (de)serialization is performed by the external
`serde_json` crate, so decoder theorems are generic over the line parser;
concrete instantiations use a small executable codec.
-/

set_option linter.unusedVariables false

/-- `Role` from src/ollama.rs (serde rename: system/user/assistant/tool). -/
inductive Role where
  | system
  | user
  | assistant
  | tool
deriving DecidableEq, Repr

/-- `serde_json::Value` (external crate), modelled opaquely by its serialized
text: no verified claim inspects the inner structure of a `metrics` value. -/
structure JsonValue where
  raw : List Char
deriving DecidableEq, Repr

/-- `ChatMessage` from src/ollama.rs. -/
structure ChatMessage where
  role : Role
  content : List Char
  thinking : Option (List Char)
  images : Option (List (List Char))
deriving DecidableEq, Repr

/-- `OllamaResponse` from src/ollama.rs: one decoded stream record. -/
structure OllamaResponse where
  model : List Char
  created_at : List Char
  message : ChatMessage
  done : Bool
  done_reason : Option (List Char)
  context : Option (List Int)
  total_duration : Option Int
  load_duration : Option Int
  prompt_eval_count : Option Int
  prompt_eval_duration : Option Int
  eval_count : Option Int
  eval_duration : Option Int
  metrics : Option JsonValue
deriving DecidableEq, Repr

/-- A minimal non-terminal assistant record carrying only a content delta,
with every optional field absent (as in a typical streaming chunk). -/
def mkResp (content : List Char) : OllamaResponse :=
  ⟨[], [], ⟨Role.assistant, content, none, none⟩, false,
    none, none, none, none, none, none, none, none, none⟩

/-- Rust `char::is_whitespace` (the Unicode White_Space property), used by
`str::trim` in the per-line trimming of the decoder. -/
def isRustWhitespace (c : Char) : Bool :=
  let n := c.toNat
  (9 ≤ n && n ≤ 13) || n = 32 || n = 0x85 || n = 0xA0 || n = 0x1680 ||
    (0x2000 ≤ n && n ≤ 0x200A) || n = 0x2028 || n = 0x2029 || n = 0x202F ||
    n = 0x205F || n = 0x3000

/-- Rust `str::trim`: drop leading and trailing whitespace. -/
def trimChars (s : List Char) : List Char :=
  ((s.dropWhile isRustWhitespace).reverse.dropWhile isRustWhitespace).reverse

/-- One complete line of the stream, as handled inside the newline loop of
`generate_stream` (src/ollama.rs lines 231-244): trim it; if it is empty,
emit nothing; otherwise attempt one JSON parse, emitting the record on
success and dropping the line on failure. -/
def emitLine {α : Type} (parse : List Char → Option α) (line : List Char) :
    List α :=
  let l := trimChars line
  if l = [] then []
  else
    match parse l with
    | some r => [r]
    | none => []

/-- The newline scan of `generate_stream` (src/ollama.rs lines 228-252) over
the text `s`, with `cur` the chars of the current line read so far (the text
between the previous newline, or the buffer start, and the scan position).
At each newline the completed line is trimmed, parsed and emitted or
dropped; the chars after the last newline are returned as the new buffer. -/
def scanNl {α : Type} (parse : List Char → Option α) :
    List Char → List Char → List α × List Char
  | cur, [] => ([], cur)
  | cur, c :: s =>
    if c = '\n' then
      (emitLine parse cur ++ (scanNl parse [] s).1, (scanNl parse [] s).2)
    else
      scanNl parse (cur ++ [c]) s

/-- One `feed` of the decoder (one iteration of the chunk loop,
src/ollama.rs lines 222-253): append the chunk text to the buffer, process
every complete newline-terminated line, keep the unterminated tail. -/
def feedText {α : Type} (parse : List Char → Option α)
    (buf chunk : List Char) : List α × List Char :=
  scanNl parse [] (buf ++ chunk)

/-- End of the HTTP stream (src/ollama.rs lines 255-263): trim the remaining
buffer; if non-empty, one final parse attempt, silently discarded on
failure. -/
def finishText {α : Type} (parse : List Char → Option α)
    (buf : List Char) : List α :=
  emitLine parse buf

/-- The whole decoder run over a list of text chunks, starting from buffer
`buf`: feed each chunk in order, then finish. -/
def runDecoder {α : Type} (parse : List Char → Option α) :
    List Char → List (List Char) → List α
  | buf, [] => finishText parse buf
  | buf, c :: cs =>
    (feedText parse buf c).1 ++ runDecoder parse (feedText parse buf c).2 cs

/-- Decode a stream of text chunks from an empty buffer. -/
def decodeTextChunks {α : Type} (parse : List Char → Option α)
    (chunks : List (List Char)) : List α :=
  runDecoder parse [] chunks

/-- Whether a byte is a UTF-8 continuation byte (0x80-0xBF). -/
def isCont (b : Nat) : Bool :=
  0x80 ≤ b && b ≤ 0xBF

/-- Valid second byte of a three-byte UTF-8 sequence headed by `b0`
(the UTF-8 validation table of Rust core: 0xE0 needs 0xA0-0xBF, 0xED needs
0x80-0x9F to exclude surrogates, the rest need a plain continuation). -/
def valid3 (b0 b1 : Nat) : Bool :=
  if b0 = 0xE0 then 0xA0 ≤ b1 && b1 ≤ 0xBF
  else if b0 = 0xED then 0x80 ≤ b1 && b1 ≤ 0x9F
  else isCont b1

/-- Valid second byte of a four-byte UTF-8 sequence headed by `b0`
(0xF0 needs 0x90-0xBF, 0xF4 needs 0x80-0x8F to stay below 0x110000). -/
def valid4 (b0 b1 : Nat) : Bool :=
  if b0 = 0xF0 then 0x90 ≤ b1 && b1 ≤ 0xBF
  else if b0 = 0xF4 then 0x80 ≤ b1 && b1 ≤ 0x8F
  else isCont b1

/-- The replacement character U+FFFD emitted by `String::from_utf8_lossy`
for each maximal invalid subpart. -/
def replChar : Char := Char.ofNat 0xFFFD

/-- Rust `String::from_utf8_lossy` (used per chunk in `generate_stream`,
src/ollama.rs line 224): decode UTF-8 left to right; each invalid maximal
subpart — an unexpected byte, or the longest prefix of a multi-byte
sequence that cannot be completed — becomes one U+FFFD.  The error lengths
follow core::str validation: a bad second byte invalidates only the leading
byte; a bad third (fourth) byte invalidates the two (three) bytes before
it; an incomplete sequence at end of input is one error. -/
def utf8Lossy : List Nat → List Char
  | [] => []
  | b :: bs =>
    if b ≤ 0x7F then Char.ofNat b :: utf8Lossy bs
    else if 0xC2 ≤ b && b ≤ 0xDF then
      match bs with
      | [] => [replChar]
      | b1 :: bs1 =>
        if isCont b1 then
          Char.ofNat ((b % 0x20) * 0x40 + b1 % 0x40) :: utf8Lossy bs1
        else replChar :: utf8Lossy (b1 :: bs1)
    else if 0xE0 ≤ b && b ≤ 0xEF then
      match bs with
      | [] => [replChar]
      | b1 :: bs1 =>
        if valid3 b b1 then
          match bs1 with
          | [] => [replChar]
          | b2 :: bs2 =>
            if isCont b2 then
              Char.ofNat ((b % 0x10) * 0x1000 + (b1 % 0x40) * 0x40 + b2 % 0x40)
                :: utf8Lossy bs2
            else replChar :: utf8Lossy (b2 :: bs2)
        else replChar :: utf8Lossy (b1 :: bs1)
    else if 0xF0 ≤ b && b ≤ 0xF4 then
      match bs with
      | [] => [replChar]
      | b1 :: bs1 =>
        if valid4 b b1 then
          match bs1 with
          | [] => [replChar]
          | b2 :: bs2 =>
            if isCont b2 then
              match bs2 with
              | [] => [replChar]
              | b3 :: bs3 =>
                if isCont b3 then
                  Char.ofNat ((b % 8) * 0x40000 + (b1 % 0x40) * 0x1000 +
                      (b2 % 0x40) * 0x40 + b3 % 0x40) :: utf8Lossy bs3
                else replChar :: utf8Lossy (b3 :: bs3)
            else replChar :: utf8Lossy (b2 :: bs2)
        else replChar :: utf8Lossy (b1 :: bs1)
    else replChar :: utf8Lossy bs

/-- UTF-8 encoding of one scalar value (how the response text is laid out
as bytes on the wire before reqwest hands it to the decoder in chunks). -/
def utf8EncodeChar (c : Char) : List Nat :=
  let n := c.toNat
  if n ≤ 0x7F then [n]
  else if n ≤ 0x7FF then [0xC0 + n / 0x40, 0x80 + n % 0x40]
  else if n ≤ 0xFFFF then
    [0xE0 + n / 0x1000, 0x80 + (n / 0x40) % 0x40, 0x80 + n % 0x40]
  else
    [0xF0 + n / 0x40000, 0x80 + (n / 0x1000) % 0x40, 0x80 + (n / 0x40) % 0x40,
      0x80 + n % 0x40]

/-- UTF-8 encoding of a text. -/
def utf8Encode (s : List Char) : List Nat :=
  s.flatMap utf8EncodeChar

/-- Rust `String::len` / `str::len`: the length in UTF-8 bytes (this is what
`token_count += response.message.content.len()` adds per record in
src/main.rs line 248). -/
def strLen (s : List Char) : Nat :=
  (utf8Encode s).length

/-- The decoder over byte chunks, as `generate_stream` actually runs it:
each chunk is converted with `from_utf8_lossy` and fed to the text layer. -/
def decodeByteChunks {α : Type} (parse : List Char → Option α)
    (chunks : List (List Nat)) : List α :=
  runDecoder parse [] (chunks.map utf8Lossy)

example : utf8Lossy [0x34, 0xC3, 0xA9] = ['4', 'é'] := by decide
example : utf8Lossy [0xC3] = [replChar] := by decide
example : utf8Lossy [0xA9, 0x22, 0x0A] = [replChar, '"', '\n'] := by decide
example : utf8Encode ['"', 'é', '"', '\n'] = [34, 195, 169, 34, 10] := by
  decide

/-- The result of one spawned page job (src/main.rs lines 234-263) on a
normal exit of its record loop: the final `token_count`, the
`accumulated_response` that is then written to the output file of the page, and
whether the loop broke early on the token budget; `unread` is the suffix of
the stream the job never consumed (the connection is abandoned there). -/
structure JobOutcome where
  token_count : Nat
  accumulated_response : List Char
  max_tokens_reached : Bool
  unread : List OllamaResponse
deriving DecidableEq, Repr

/-- The record loop of the spawned job (src/main.rs lines 238-253): for each
record append the content delta, add its byte length to the token count, and
break as soon as `token_count > max_tokens` (strict comparison). -/
def jobLoop (max_tokens token_count : Nat) (acc : List Char) :
    List OllamaResponse → Nat × List Char × Bool × List OllamaResponse
  | [] => (token_count, acc, false, [])
  | r :: rest =>
    let acc2 := acc ++ r.message.content
    let tc2 := token_count + strLen r.message.content
    if max_tokens < tc2 then (tc2, acc2, true, rest)
    else jobLoop max_tokens tc2 acc2 rest

/-- One whole spawned job over the records its decoded stream would yield
(src/main.rs lines 234-263).  `none` models the panic at
`start.unwrap().elapsed()` when the stream ended before any record arrived
(`start` is still `None`); otherwise the job prints its stats and writes
`accumulated_response` to the content file of the page. -/
def runJob (max_tokens : Nat) (records : List OllamaResponse) :
    Option JobOutcome :=
  match records with
  | [] => none
  | _ :: _ =>
    match jobLoop max_tokens 0 [] records with
    | (tc, acc, broke, rest) => some ⟨tc, acc, broke, rest⟩

/-- Rust `str::split_once(ch)`: split at the first occurrence of `ch`,
`none` when it does not occur. -/
def splitOnce (ch : Char) : List Char → Option (List Char × List Char)
  | [] => none
  | c :: cs =>
    if c = ch then some ([], cs)
    else (splitOnce ch cs).map (fun p => (c :: p.1, p.2))

/-- Whether a char is an ASCII digit. -/
def isAsciiDigit (c : Char) : Bool :=
  '0' ≤ c && c ≤ '9'

/-- Numeric value of a digit string. -/
def digitsToNat (ds : List Char) : Nat :=
  ds.foldl (fun a c => a * 10 + (c.toNat - 48)) 0

/-- Rust `str::parse::<usize>()` on a 64-bit target: an optional leading
`+`, then one or more ASCII digits, failing on anything else and on
overflow past `usize::MAX`.  Note that `"0"` parses successfully to 0. -/
def parseUsize (s : List Char) : Option Nat :=
  let t := match s with
    | '+' :: rest => rest
    | _ => s
  if t ≠ [] && t.all isAsciiDigit then
    if digitsToNat t < 2 ^ 64 then some (digitsToNat t) else none
  else none

/-- Parsing of one configured `--ollama-url` token (src/main.rs lines
32-33): `split_once('@').unwrap_or((url, "1"))`, then
`count.parse::<usize>().unwrap_or(1)`. -/
def parseUrlToken (tok : List Char) : List Char × Nat :=
  let p := (splitOnce '@' tok).getD (tok, ['1'])
  (p.1, (parseUsize p.2).getD 1)

/-- `OllamaClient` from src/ollama.rs (base_url, model, count). -/
structure OllamaClient where
  base_url : List Char
  model : List Char
  count : Nat
deriving DecidableEq, Repr

/-- The client list built in src/main.rs lines 28-37: one client per
configured URL token, with its parsed address and replica count. -/
def mkClients (model : List Char) (urls : List (List Char)) :
    List OllamaClient :=
  urls.map (fun u =>
    let p := parseUrlToken u
    ⟨p.1, model, p.2⟩)

/-- The flattened round-robin pool `ollama_list` (src/main.rs lines
104-112): each client pushed `count` times, in order.  No emptiness check
is performed. -/
def buildPool (clients : List OllamaClient) : List OllamaClient :=
  clients.flatMap (fun c => List.replicate c.count c)

/-- The positional endpoint assignment `&ollama_list[(page_no - 1) %
ollama_list.len()]` (src/main.rs line 225), as a function of the zero-based
index.  On an empty pool the Rust expression panics (remainder by zero);
this is modelled by `none` (`i % 0 = i` in Lean and `List.get?` of the
empty list is `none`). -/
def assign (pool : List OllamaClient) (i : Nat) : Option OllamaClient :=
  pool.get? (i % pool.length)

/-- Error text of src/main.rs line 129. -/
def errPageStartZero : List Char :=
  ("Page start cannot be 0").toList

/-- Error text of src/main.rs line 133. -/
def errPageEndLtStart : List Char :=
  ("Page end cannot be less than page start").toList

/-- Error text of src/main.rs lines 136-138. -/
def errPageEndGtCount : List Char :=
  ("Page end cannot be greater than page count").toList

/-- The page-range validation of src/main.rs lines 126-139, run after the
document is loaded and before the dispatch loop (and hence before any job
is spawned): default `page_start` to 1 and reject 0; default `page_end` to
the page count, reject `page_end < page_start`, then reject
`page_end > page_count`. -/
def validatePageRange (pageCount : Nat) (pageStartArg pageEndArg : Option Nat) :
    Except (List Char) (Nat × Nat) :=
  let ps := pageStartArg.getD 1
  if ps = 0 then Except.error errPageStartZero
  else
    let pe := pageEndArg.getD pageCount
    if pe < ps then Except.error errPageEndLtStart
    else if pageCount < pe then Except.error errPageEndGtCount
    else Except.ok (ps, pe)

/-- A concrete line codec used to instantiate the generic decoder theorems:
a record whose serialized line is its content delta between double quotes.
It satisfies the round-trip contract the spec assumes of the JSON codec on
every record whose content contains no quote, no newline and no surrounding
whitespace. -/
def parseQuoted (s : List Char) : Option OllamaResponse :=
  if 2 ≤ s.length && s.head? = some '"' && s.getLast? = some '"' &&
      ((s.drop 1).dropLast.all fun c => c ≠ '"') then
    some (mkResp ((s.drop 1).dropLast))
  else none

/-- Serialization matching `parseQuoted`. -/
def encodeQuoted (r : OllamaResponse) : List Char :=
  '"' :: r.message.content ++ ['"']

example : parseQuoted (encodeQuoted (mkResp ['é'])) = some (mkResp ['é']) := by
  decide
example : parseQuoted ['x'] = none := by decide
example :
    runJob 8 [mkResp ['a', 'b', 'c', 'd', 'e'], mkResp ['f', 'g', 'h', 'i', 'j'],
      mkResp ['k']] =
    some ⟨10, ['a', 'b', 'c', 'd', 'e', 'f', 'g', 'h', 'i', 'j'], true,
      [mkResp ['k']]⟩ := by decide
example :
    buildPool (mkClients ['m'] [("A@2").toList, ("B@1").toList]) =
    [⟨['A'], ['m'], 2⟩, ⟨['A'], ['m'], 2⟩, ⟨['B'], ['m'], 1⟩] := by decide
example : parseUrlToken (("h@0").toList) = (['h'], 0) := by decide
example : parseUrlToken (("h").toList) = (['h'], 1) := by decide
example : validatePageRange 5 (some 0) none = Except.error errPageStartZero := by
  rfl

/-- The pool of the determinism example of the spec: endpoints `A@2, B@1`. -/
def poolAB : List OllamaClient :=
  buildPool (mkClients ['m'] [("A@2").toList, ("B@1").toList])

/-- The client parsed from `A@2`. -/
def clientA : OllamaClient := ⟨['A'], ['m'], 2⟩

/-- The client parsed from `B@1`. -/
def clientB : OllamaClient := ⟨['B'], ['m'], 1⟩

theorem scanNl_cons_nl {α : Type} (parse : List Char → Option α)
    (cur s : List Char) :
    scanNl parse cur ('\n' :: s) =
      (emitLine parse cur ++ (scanNl parse [] s).1, (scanNl parse [] s).2) := by
  simp [scanNl]

theorem scanNl_cons_other {α : Type} (parse : List Char → Option α)
    (cur s : List Char) (c : Char) (hc : ¬ c = '\n') :
    scanNl parse cur (c :: s) = scanNl parse (cur ++ [c]) s := by
  simp [scanNl, hc]

theorem scanNl_append_of_not_nl {α : Type} (parse : List Char → Option α) :
    ∀ (t cur s : List Char), '\n' ∉ t →
      scanNl parse cur (t ++ s) = scanNl parse (cur ++ t) s := by
  intro t
  induction t with
  | nil => intro cur s _; simp
  | cons c t ih =>
    intro cur s ht
    rw [List.mem_cons, not_or] at ht
    have hc : ¬ c = '\n' := fun h => ht.1 h.symm
    rw [List.cons_append, scanNl_cons_other parse cur (t ++ s) c hc,
      ih (cur ++ [c]) s ht.2, List.append_assoc, List.singleton_append]

theorem scanNl_of_not_nl {α : Type} (parse : List Char → Option α)
    (cur s : List Char) (h : '\n' ∉ s) :
    scanNl parse cur s = ([], cur ++ s) := by
  have h2 := scanNl_append_of_not_nl parse s cur [] h
  rw [List.append_nil] at h2
  rw [h2]
  rfl

theorem scanNl_append {α : Type} (parse : List Char → Option α) :
    ∀ (a b cur : List Char),
      scanNl parse cur (a ++ b) =
        ((scanNl parse cur a).1 ++ (scanNl parse (scanNl parse cur a).2 b).1,
          (scanNl parse (scanNl parse cur a).2 b).2) := by
  intro a
  induction a with
  | nil => intro b cur; simp [scanNl]
  | cons c a ih =>
    intro b cur
    by_cases hc : c = '\n'
    · subst hc
      rw [List.cons_append, scanNl_cons_nl parse cur (a ++ b),
        scanNl_cons_nl parse cur a, ih b []]
      simp [List.append_assoc]
    · rw [List.cons_append, scanNl_cons_other parse cur (a ++ b) c hc,
        scanNl_cons_other parse cur a c hc]
      exact ih b (cur ++ [c])

theorem nl_not_mem_scanNl_tail {α : Type} (parse : List Char → Option α) :
    ∀ (s cur : List Char), '\n' ∉ cur → '\n' ∉ (scanNl parse cur s).2 := by
  intro s
  induction s with
  | nil => intro cur h; simpa [scanNl] using h
  | cons c s ih =>
    intro cur h
    by_cases hc : c = '\n'
    · subst hc
      rw [scanNl_cons_nl parse cur s]
      exact ih [] (by simp)
    · rw [scanNl_cons_other parse cur s c hc]
      refine ih (cur ++ [c]) ?_
      rw [List.mem_append, not_or]
      refine ⟨h, ?_⟩
      simp only [List.mem_singleton]
      exact fun hh => hc hh.symm

theorem runDecoder_eq_join {α : Type} (parse : List Char → Option α) :
    ∀ (chunks : List (List Char)) (buf : List Char), '\n' ∉ buf →
      runDecoder parse buf chunks =
        (scanNl parse [] (buf ++ chunks.flatten)).1 ++
          emitLine parse (scanNl parse [] (buf ++ chunks.flatten)).2 := by
  intro chunks
  induction chunks with
  | nil =>
    intro buf h
    rw [List.flatten_nil, List.append_nil, scanNl_of_not_nl parse [] buf h]
    simp [runDecoder, finishText]
  | cons ch cs ih =>
    intro buf h
    have htail : '\n' ∉ (scanNl parse [] (buf ++ ch)).2 :=
      nl_not_mem_scanNl_tail parse (buf ++ ch) [] (by simp)
    rw [List.flatten_cons, ← List.append_assoc,
      scanNl_append parse (buf ++ ch) cs.flatten []]
    have hshift :
        scanNl parse [] ((scanNl parse [] (buf ++ ch)).2 ++ cs.flatten) =
          scanNl parse (scanNl parse [] (buf ++ ch)).2 cs.flatten := by
      rw [scanNl_append_of_not_nl parse (scanNl parse [] (buf ++ ch)).2 []
        cs.flatten htail, List.nil_append]
    show (feedText parse buf ch).1 ++
        runDecoder parse (feedText parse buf ch).2 cs = _
    rw [show feedText parse buf ch = scanNl parse [] (buf ++ ch) from rfl,
      ih (scanNl parse [] (buf ++ ch)).2 htail, hshift]
    simp [List.append_assoc]

theorem scanNl_line {α : Type} (parse : List Char → Option α)
    (cur l rest : List Char) (h : '\n' ∉ l) :
    scanNl parse cur (l ++ '\n' :: rest) =
      (emitLine parse (cur ++ l) ++ (scanNl parse [] rest).1,
        (scanNl parse [] rest).2) := by
  rw [scanNl_append_of_not_nl parse l cur ('\n' :: rest) h,
    scanNl_cons_nl parse (cur ++ l) rest]

theorem scanNl_nil {α : Type} (parse : List Char → Option α)
    (cur : List Char) : scanNl parse cur [] = ([], cur) := rfl

/-- Claim C8: for every chunked input in which a malformed line (one that
fails JSON parsing) ends at a newline and lies between two well-formed
newline-terminated JSON lines, the decoder drops the malformed line without
emitting it and still emits the records of both surrounding lines, in
order, whatever the chunk boundaries; the decode failure produces no error
in the output stream. -/
theorem decoder_resilience_malformed_line_dropped {α : Type}
    (parse : List Char → Option α) (l1 bad l2 : List Char) (r1 r2 : α)
    (chunks : List (List Char))
    (hj : chunks.flatten = l1 ++ '\n' :: (bad ++ '\n' :: (l2 ++ ['\n'])))
    (h1 : '\n' ∉ l1) (hb : '\n' ∉ bad) (h2 : '\n' ∉ l2)
    (ht1 : ¬ trimChars l1 = []) (htb : ¬ trimChars bad = [])
    (ht2 : ¬ trimChars l2 = [])
    (hp1 : parse (trimChars l1) = some r1)
    (hpb : parse (trimChars bad) = none)
    (hp2 : parse (trimChars l2) = some r2) :
    decodeTextChunks parse chunks = [r1, r2] := by
  have e1 : emitLine parse l1 = [r1] := by simp [emitLine, ht1, hp1]
  have eb : emitLine parse bad = [] := by simp [emitLine, htb, hpb]
  have e2 : emitLine parse l2 = [r2] := by simp [emitLine, ht2, hp2]
  have e0 : emitLine parse ([] : List Char) = [] := rfl
  show runDecoder parse [] chunks = [r1, r2]
  rw [runDecoder_eq_join parse chunks [] (by simp), List.nil_append, hj]
  rw [scanNl_line parse [] l1 _ h1, List.nil_append]
  rw [scanNl_line parse [] bad _ hb, List.nil_append]
  rw [scanNl_line parse [] l2 _ h2, List.nil_append]
  rw [scanNl_nil parse]
  simp [e1, eb, e2, e0]

/-- Witness for C8 at a concrete stream: the malformed line `x` between the
two quoted lines is dropped even though the chunk boundary falls inside it. -/
theorem decoder_resilience_witness :
    decodeTextChunks parseQuoted
      [['"', 'a', '"', '\n', 'x'], ['\n', '"', 'b', '"', '\n']] =
      [mkResp ['a'], mkResp ['b']] :=
  decoder_resilience_malformed_line_dropped parseQuoted
    ['"', 'a', '"'] ['x'] ['"', 'b', '"'] (mkResp ['a']) (mkResp ['b'])
    [['"', 'a', '"', '\n', 'x'], ['\n', '"', 'b', '"', '\n']]
    (by decide) (by decide) (by decide) (by decide) (by decide) (by decide)
    (by decide) (by decide) (by decide) (by decide)

theorem toNat_charOfNat_of_valid {n : Nat} (h : n.isValidChar) :
    (Char.ofNat n).toNat = n := by
  simp [Char.ofNat, h, Char.ofNatAux, Char.toNat, UInt32.toNat,
    BitVec.toNat_ofNatLt]

theorem charOfNat_ne_nl {n : Nat} (h : ¬ n = 10) : ¬ Char.ofNat n = '\n' := by
  intro he
  by_cases hv : n.isValidChar
  · have ht : (Char.ofNat n).toNat = n := toNat_charOfNat_of_valid hv
    rw [he] at ht
    exact h ht.symm
  · have ht : (Char.ofNat n).toNat = 0 := by
      simp [Char.ofNat, hv, Char.toNat, UInt32.toNat, BitVec.toNat_ofNatLt]
    rw [he] at ht
    exact absurd ht (by decide)

theorem replChar_ne_nl : ¬ replChar = '\n' := by decide

theorem not_mem_cons_of {c d : Char} {l : List Char} (h1 : ¬ c = d)
    (h2 : d ∉ l) : d ∉ c :: l := by
  intro hm
  rcases List.mem_cons.mp hm with hh | hh
  · exact h1 hh.symm
  · exact h2 hh

theorem nl_not_mem_utf8Lossy :
    ∀ (bs : List Nat), (∀ b ∈ bs, ¬ b = 10) → '\n' ∉ utf8Lossy bs := by
  intro bs
  induction bs using utf8Lossy.induct with
  | case1 => intro h; simp [utf8Lossy]
  | case2 b bs h127 ih =>
    intro h
    have hform : utf8Lossy (b :: bs) = Char.ofNat b :: utf8Lossy bs := by
      rw [utf8Lossy.eq_def]; simp [h127]
    rw [hform]
    exact not_mem_cons_of (charOfNat_ne_nl (h b (by simp)))
      (ih fun x hx => h x (by simp [hx]))
  | case3 b hn127 h2b =>
    intro h
    have hform : utf8Lossy [b] = [replChar] := by
      rw [utf8Lossy.eq_def]; simp [hn127, h2b]
    rw [hform]
    exact not_mem_cons_of replChar_ne_nl (by simp)
  | case4 b hn127 h2b b1 bs1 hcont ih =>
    intro h
    have harith : ¬ (b % 0x20) * 0x40 + b1 % 0x40 = 10 := by
      simp only [Bool.and_eq_true, decide_eq_true_eq] at h2b
      omega
    have hform : utf8Lossy (b :: b1 :: bs1) =
        Char.ofNat ((b % 0x20) * 0x40 + b1 % 0x40) :: utf8Lossy bs1 := by
      rw [utf8Lossy.eq_def]; simp [hn127, h2b, hcont]
    rw [hform]
    exact not_mem_cons_of (charOfNat_ne_nl harith)
      (ih fun x hx => h x (by simp [hx]))
  | case5 b hn127 h2b b1 bs1 hncont ih =>
    intro h
    have hform : utf8Lossy (b :: b1 :: bs1) =
        replChar :: utf8Lossy (b1 :: bs1) := by
      rw [utf8Lossy.eq_def]; simp [hn127, h2b, hncont]
    rw [hform]
    exact not_mem_cons_of replChar_ne_nl (ih fun x hx => h x (by simp [hx]))
  | case6 b hn127 hn2b h3b =>
    intro h
    have hform : utf8Lossy [b] = [replChar] := by
      rw [utf8Lossy.eq_def]; simp [hn127, hn2b, h3b]
    rw [hform]
    exact not_mem_cons_of replChar_ne_nl (by simp)
  | case7 b hn127 hn2b h3b b1 hv3 =>
    intro h
    have hform : utf8Lossy [b, b1] = [replChar] := by
      rw [utf8Lossy.eq_def]; simp [hn127, hn2b, h3b, hv3]
    rw [hform]
    exact not_mem_cons_of replChar_ne_nl (by simp)
  | case8 b hn127 hn2b h3b b1 hv3 b2 bs2 hcont2 ih =>
    intro h
    have harith :
        ¬ (b % 0x10) * 0x1000 + (b1 % 0x40) * 0x40 + b2 % 0x40 = 10 := by
      simp only [Bool.and_eq_true, decide_eq_true_eq] at h3b
      simp only [valid3, isCont] at hv3
      split at hv3
      · simp only [Bool.and_eq_true, decide_eq_true_eq] at hv3
        omega
      · split at hv3
        · simp only [Bool.and_eq_true, decide_eq_true_eq] at hv3
          omega
        · simp only [Bool.and_eq_true, decide_eq_true_eq] at hv3
          omega
    have hform : utf8Lossy (b :: b1 :: b2 :: bs2) =
        Char.ofNat ((b % 0x10) * 0x1000 + (b1 % 0x40) * 0x40 + b2 % 0x40) ::
          utf8Lossy bs2 := by
      rw [utf8Lossy.eq_def]; simp [hn127, hn2b, h3b, hv3, hcont2]
    rw [hform]
    exact not_mem_cons_of (charOfNat_ne_nl harith)
      (ih fun x hx => h x (by simp [hx]))
  | case9 b hn127 hn2b h3b b1 hv3 b2 bs2 hncont2 ih =>
    intro h
    have hform : utf8Lossy (b :: b1 :: b2 :: bs2) =
        replChar :: utf8Lossy (b2 :: bs2) := by
      rw [utf8Lossy.eq_def]; simp [hn127, hn2b, h3b, hv3, hncont2]
    rw [hform]
    exact not_mem_cons_of replChar_ne_nl (ih fun x hx => h x (by simp [hx]))
  | case10 b hn127 hn2b h3b b1 bs1 hnv3 ih =>
    intro h
    have hform : utf8Lossy (b :: b1 :: bs1) =
        replChar :: utf8Lossy (b1 :: bs1) := by
      rw [utf8Lossy.eq_def]; simp [hn127, hn2b, h3b, hnv3]
    rw [hform]
    exact not_mem_cons_of replChar_ne_nl (ih fun x hx => h x (by simp [hx]))
  | case11 b hn127 hn2b hn3b h4b =>
    intro h
    have hform : utf8Lossy [b] = [replChar] := by
      rw [utf8Lossy.eq_def]; simp [hn127, hn2b, hn3b, h4b]
    rw [hform]
    exact not_mem_cons_of replChar_ne_nl (by simp)
  | case12 b hn127 hn2b hn3b h4b b1 hv4 =>
    intro h
    have hform : utf8Lossy [b, b1] = [replChar] := by
      rw [utf8Lossy.eq_def]; simp [hn127, hn2b, hn3b, h4b, hv4]
    rw [hform]
    exact not_mem_cons_of replChar_ne_nl (by simp)
  | case13 b hn127 hn2b hn3b h4b b1 hv4 b2 hcont2 =>
    intro h
    have hform : utf8Lossy [b, b1, b2] = [replChar] := by
      rw [utf8Lossy.eq_def]; simp [hn127, hn2b, hn3b, h4b, hv4, hcont2]
    rw [hform]
    exact not_mem_cons_of replChar_ne_nl (by simp)
  | case14 b hn127 hn2b hn3b h4b b1 hv4 b2 hcont2 b3 bs3 hcont3 ih =>
    intro h
    have harith : ¬ (b % 8) * 0x40000 + (b1 % 0x40) * 0x1000 +
        (b2 % 0x40) * 0x40 + b3 % 0x40 = 10 := by
      simp only [Bool.and_eq_true, decide_eq_true_eq] at h4b
      simp only [valid4, isCont] at hv4
      split at hv4
      · simp only [Bool.and_eq_true, decide_eq_true_eq] at hv4
        omega
      · split at hv4
        · simp only [Bool.and_eq_true, decide_eq_true_eq] at hv4
          omega
        · simp only [Bool.and_eq_true, decide_eq_true_eq] at hv4
          omega
    have hform : utf8Lossy (b :: b1 :: b2 :: b3 :: bs3) =
        Char.ofNat ((b % 8) * 0x40000 + (b1 % 0x40) * 0x1000 +
          (b2 % 0x40) * 0x40 + b3 % 0x40) :: utf8Lossy bs3 := by
      rw [utf8Lossy.eq_def]; simp [hn127, hn2b, hn3b, h4b, hv4, hcont2, hcont3]
    rw [hform]
    exact not_mem_cons_of (charOfNat_ne_nl harith)
      (ih fun x hx => h x (by simp [hx]))
  | case15 b hn127 hn2b hn3b h4b b1 hv4 b2 hcont2 b3 bs3 hncont3 ih =>
    intro h
    have hform : utf8Lossy (b :: b1 :: b2 :: b3 :: bs3) =
        replChar :: utf8Lossy (b3 :: bs3) := by
      rw [utf8Lossy.eq_def]; simp [hn127, hn2b, hn3b, h4b, hv4, hcont2, hncont3]
    rw [hform]
    exact not_mem_cons_of replChar_ne_nl (ih fun x hx => h x (by simp [hx]))
  | case16 b hn127 hn2b hn3b h4b b1 hv4 b2 bs2 hncont2 ih =>
    intro h
    have hform : utf8Lossy (b :: b1 :: b2 :: bs2) =
        replChar :: utf8Lossy (b2 :: bs2) := by
      rw [utf8Lossy.eq_def]; simp [hn127, hn2b, hn3b, h4b, hv4, hncont2]
    rw [hform]
    exact not_mem_cons_of replChar_ne_nl (ih fun x hx => h x (by simp [hx]))
  | case17 b hn127 hn2b hn3b h4b b1 bs1 hnv4 ih =>
    intro h
    have hform : utf8Lossy (b :: b1 :: bs1) =
        replChar :: utf8Lossy (b1 :: bs1) := by
      rw [utf8Lossy.eq_def]; simp [hn127, hn2b, hn3b, h4b, hnv4]
    rw [hform]
    exact not_mem_cons_of replChar_ne_nl (ih fun x hx => h x (by simp [hx]))
  | case18 b bs1 hn127 hn2b hn3b hn4b ih =>
    intro h
    have hform : utf8Lossy (b :: bs1) = replChar :: utf8Lossy bs1 := by
      rw [utf8Lossy.eq_def]; simp [hn127, hn2b, hn3b, hn4b]
    rw [hform]
    exact not_mem_cons_of replChar_ne_nl (ih fun x hx => h x (by simp [hx]))

/-- Claim C10: the decoder is total over arbitrary byte chunks — each chunk
is converted to text lossily, so no byte content can make the decode step
error or terminate the stream.  A chunk of arbitrary bytes (as long as none
is the raw newline byte 10) followed by a newline chunk affects exactly its
own line — lossily converted, trimmed and parsed-or-dropped — and the rest
of the stream decodes exactly as it would on its own. -/
theorem decoder_total_on_arbitrary_bytes {α : Type}
    (parse : List Char → Option α) (junk : List Nat)
    (rest : List (List Nat)) (h : ∀ b ∈ junk, ¬ b = 10) :
    decodeByteChunks parse (junk :: [10] :: rest) =
      emitLine parse (utf8Lossy junk) ++ decodeByteChunks parse rest := by
  have hnl : '\n' ∉ utf8Lossy junk := nl_not_mem_utf8Lossy junk h
  have h10 : utf8Lossy [10] = ['\n'] := by decide
  unfold decodeByteChunks
  rw [List.map_cons, List.map_cons, h10,
    runDecoder_eq_join parse _ [] (by simp),
    runDecoder_eq_join parse (rest.map utf8Lossy) [] (by simp),
    List.nil_append, List.nil_append,
    List.flatten_cons, List.flatten_cons, List.singleton_append,
    scanNl_line parse [] (utf8Lossy junk) _ hnl, List.nil_append]
  simp [List.append_assoc]

/-- Witness for C10 at a concrete input: the invalid byte 0xFF becomes one
replacement character, its line is dropped as unparseable, and the
following well-formed line still decodes. -/
theorem decoder_total_on_arbitrary_bytes_witness :
    decodeByteChunks parseQuoted [[0xFF], [10], [34, 104, 34, 10]] =
      emitLine parseQuoted (utf8Lossy [0xFF]) ++
        decodeByteChunks parseQuoted [[34, 104, 34, 10]] :=
  decoder_total_on_arbitrary_bytes parseQuoted [0xFF] [[34, 104, 34, 10]]
    (by decide)

example : decodeByteChunks parseQuoted [[0xFF], [10], [34, 104, 34, 10]] =
    [mkResp ['h']] := by decide

/-- Claim C1 is refuted by the code: a well-formed record whose serialized
line round-trips through the codec, laid out as UTF-8 bytes with its
two-byte character split across a chunk boundary, is corrupted by the
per-chunk `from_utf8_lossy` conversion: the decoder emits a record whose
content is two replacement characters instead of the original one. -/
theorem decoder_mid_codepoint_split_corrupts :
    parseQuoted (trimChars (encodeQuoted (mkResp ['é']))) =
      some (mkResp ['é']) ∧
    '\n' ∉ encodeQuoted (mkResp ['é']) ∧
    utf8Encode (encodeQuoted (mkResp ['é']) ++ ['\n']) =
      [34, 195, 169, 34, 10] ∧
    decodeByteChunks parseQuoted [[34, 195], [169, 34, 10]] =
      [mkResp [replChar, replChar]] ∧
    ¬ mkResp [replChar, replChar] = mkResp ['é'] := by decide

/-- Claim C2: with contentDelta byte lengths [5,5,5] and a token budget of
8, the job consumes exactly the first two records, ends with token count
10, sets the budget-exceeded flag, accumulates only the first two deltas
and never reads the third. -/
theorem job_budget_enforcement (r1 r2 r3 : OllamaResponse)
    (h1 : strLen r1.message.content = 5)
    (h2 : strLen r2.message.content = 5)
    (h3 : strLen r3.message.content = 5) :
    runJob 8 [r1, r2, r3] =
      some ⟨10, r1.message.content ++ r2.message.content, true, [r3]⟩ := by
  simp [runJob, jobLoop, h1, h2]

/-- Witness for C2 with three five-byte deltas. -/
theorem job_budget_enforcement_witness :
    strLen ['a', 'a', 'a', 'a', 'a'] = 5 ∧
    runJob 8 [mkResp ['a', 'a', 'a', 'a', 'a'],
        mkResp ['b', 'b', 'b', 'b', 'b'], mkResp ['c', 'c', 'c', 'c', 'c']] =
      some ⟨10, ['a', 'a', 'a', 'a', 'a'] ++ ['b', 'b', 'b', 'b', 'b'], true,
        [mkResp ['c', 'c', 'c', 'c', 'c']]⟩ :=
  ⟨by decide,
    job_budget_enforcement (mkResp ['a', 'a', 'a', 'a', 'a'])
      (mkResp ['b', 'b', 'b', 'b', 'b']) (mkResp ['c', 'c', 'c', 'c', 'c'])
      (by decide) (by decide) (by decide)⟩

theorem utf8EncodeChar_length_pos (c : Char) :
    0 < (utf8EncodeChar c).length := by
  simp only [utf8EncodeChar]
  split
  · simp
  · split
    · simp
    · split <;> simp

theorem strLen_pos (s : List Char) (h : ¬ s = []) : 0 < strLen s := by
  cases s with
  | nil => exact absurd rfl h
  | cons c cs =>
    unfold strLen utf8Encode
    rw [List.flatMap_cons, List.length_append]
    have := utf8EncodeChar_length_pos c
    omega

/-- Claim C7: the budget check compares the running count strictly against
the budget, after accumulating each record.  With a budget of 0, the job
stops right after the first record with a non-empty contentDelta (records
with empty deltas before it are consumed without triggering the stop), and
a record with an empty contentDelta never triggers the stop by itself while
the count is within the budget. -/
theorem job_budget_zero_stops_on_first_nonempty :
    (∀ (es : List OllamaResponse) (r : OllamaResponse)
        (rest : List OllamaResponse),
        (∀ e ∈ es, e.message.content = []) → ¬ r.message.content = [] →
        jobLoop 0 0 [] (es ++ r :: rest) =
          (strLen r.message.content, r.message.content, true, rest)) ∧
    (∀ (budget tc : Nat) (acc : List Char) (r : OllamaResponse)
        (rest : List OllamaResponse),
        r.message.content = [] → tc ≤ budget →
        jobLoop budget tc acc (r :: rest) = jobLoop budget tc acc rest) := by
  constructor
  · intro es
    induction es with
    | nil =>
      intro r rest he hr
      have hpos := strLen_pos r.message.content hr
      simp [jobLoop, hpos]
    | cons e es ih =>
      intro r rest he hr
      have hemt : e.message.content = [] := he e (by simp)
      have hrec := ih r rest (fun x hx => he x (by simp [hx])) hr
      simp only [List.cons_append, jobLoop, hemt]
      simpa [strLen, utf8Encode] using hrec
  · intro budget tc acc r rest hemt htc
    simp [jobLoop, hemt, strLen, utf8Encode, Nat.not_lt.mpr htc]

/-- Witness for C7: budget 0 with an empty delta followed by `a`. -/
theorem job_budget_zero_witness :
    jobLoop 0 0 [] ([mkResp []] ++ mkResp ['a'] :: []) =
      (strLen ['a'], ['a'], true, []) ∧
    jobLoop 5 0 [] (mkResp [] :: [mkResp ['x']]) =
      jobLoop 5 0 [] [mkResp ['x']] :=
  ⟨job_budget_zero_stops_on_first_nonempty.1 [mkResp []] (mkResp ['a']) []
      (by decide) (by decide),
    job_budget_zero_stops_on_first_nonempty.2 5 0 [] (mkResp [])
      [mkResp ['x']] (by decide) (by decide)⟩

/-- Counterexample to claim C4: a stream that ends cleanly after one
non-terminal record (`done = false`), with the budget untouched, does not
produce any failure: the job completes normally, with the accumulated text
(which `main` then persists) and the budget flag off.  The loop never
inspects `done`. -/
theorem job_truncation_counterexample :
    (mkResp ['a']).done = false ∧
    runJob 100 [mkResp ['a']] = some ⟨1, ['a'], false, []⟩ := by decide

theorem jobLoop_no_break (budget : Nat) :
    ∀ (rs : List OllamaResponse) (tc : Nat) (acc : List Char),
      tc + (rs.map fun r => strLen r.message.content).sum ≤ budget →
      jobLoop budget tc acc rs =
        (tc + (rs.map fun r => strLen r.message.content).sum,
          acc ++ (rs.map fun r => r.message.content).flatten, false, []) := by
  intro rs
  induction rs with
  | nil => intro tc acc h; simp [jobLoop]
  | cons r rs ih =>
    intro tc acc h
    rw [List.map_cons, List.sum_cons] at h
    simp only [jobLoop]
    rw [if_neg (by omega)]
    rw [ih (tc + strLen r.message.content) (acc ++ r.message.content)
      (by omega)]
    simp [List.append_assoc, Nat.add_assoc]

/-- Claim C4 (amended): when the stream ends without a `done` record and
without the budget having been exceeded, the job does not fail — it
completes normally, accumulating every delta, and its text is persisted
exactly as on a `done`-terminated stream, because the loop never reads the
`done` flag; the only failing path is a stream that yields no record at
all, which panics at `start.unwrap()` instead of producing a Failed
status. -/
theorem job_truncation_completes_normally :
    (∀ (budget : Nat) (rs : List OllamaResponse), ¬ rs = [] →
        (rs.map fun r => strLen r.message.content).sum ≤ budget →
        runJob budget rs =
          some ⟨(rs.map fun r => strLen r.message.content).sum,
            (rs.map fun r => r.message.content).flatten, false, []⟩) ∧
    (∀ budget : Nat, runJob budget [] = none) := by
  constructor
  · intro budget rs hne hb
    cases rs with
    | nil => exact absurd rfl hne
    | cons r rs =>
      simp only [runJob]
      rw [jobLoop_no_break budget (r :: rs) 0 [] (by simpa using hb)]
      simp
  · intro budget
    rfl

/-- Witness for C4 (amended) on a two-record stream without `done`. -/
theorem job_truncation_witness :
    runJob 100 [mkResp ['a'], mkResp ['b']] =
      some ⟨([mkResp ['a'], mkResp ['b']].map fun r =>
          strLen r.message.content).sum,
        ([mkResp ['a'], mkResp ['b']].map fun r =>
          r.message.content).flatten, false, []⟩ ∧
    runJob 100 [] = none :=
  ⟨job_truncation_completes_normally.1 100 [mkResp ['a'], mkResp ['b']]
      (by decide) (by decide),
    job_truncation_completes_normally.2 100⟩

/-- Counterexample to claim C3: with the single configured address `h@0`
(`"0"` parses as a valid usize), the flattened pool is built empty — no
ConfigurationError is raised, there is no emptiness check at all — and the
first endpoint assignment is the remainder-by-zero panic (modelled `none`)
at dispatch time, so the length ≥ 1 invariant does not hold before
dispatch. -/
theorem pool_empty_no_failfast_counterexample :
    buildPool (mkClients ['m'] [("h@0").toList]) = [] ∧
    assign (buildPool (mkClients ['m'] [("h@0").toList])) 0 = none := by
  decide

/-- Claim C3 (amended): building the pool performs no emptiness check and
can produce an empty pool (for example when every address carries weight
0): the length of the pool is exactly the sum of the parsed replica counts, and
when that sum is 0 every endpoint assignment panics (remainder by zero,
modelled `none`) at dispatch time instead of failing fast with a
ConfigurationError before any job is launched. -/
theorem pool_build_length_no_check :
    ∀ (model : List Char) (urls : List (List Char)),
      (buildPool (mkClients model urls)).length =
        (urls.map fun u => (parseUrlToken u).2).sum ∧
      (buildPool (mkClients model urls) = [] →
        ∀ i : Nat, assign (buildPool (mkClients model urls)) i = none) := by
  intro model urls
  constructor
  · simp [buildPool, mkClients, List.length_flatMap, List.map_map,
      Function.comp_def, List.length_replicate]
  · intro hp i
    rw [hp]
    rfl

/-- Witness for C3 (amended) on the configuration `h@0`. -/
theorem pool_build_length_no_check_witness :
    (buildPool (mkClients ['m'] [("h@0").toList])).length =
      ([("h@0").toList].map fun u => (parseUrlToken u).2).sum ∧
    assign (buildPool (mkClients ['m'] [("h@0").toList])) 7 = none :=
  ⟨(pool_build_length_no_check ['m'] [("h@0").toList]).1,
    (pool_build_length_no_check ['m'] [("h@0").toList]).2 (by decide) 7⟩

theorem splitOnce_of_not_mem (ch : Char) :
    ∀ (l : List Char), ch ∉ l → splitOnce ch l = none := by
  intro l
  induction l with
  | nil => intro _; rfl
  | cons c cs ih =>
    intro h
    rw [List.mem_cons, not_or] at h
    have hc : ¬ c = ch := fun he => h.1 he.symm
    simp [splitOnce, hc, ih h.2]

theorem splitOnce_first (ch : Char) :
    ∀ (l r : List Char), ch ∉ l → splitOnce ch (l ++ ch :: r) = some (l, r) := by
  intro l
  induction l with
  | nil => intro r _; simp [splitOnce]
  | cons c cs ih =>
    intro r h
    rw [List.mem_cons, not_or] at h
    have hc : ¬ c = ch := fun he => h.1 he.symm
    simp [splitOnce, hc, ih r h.2]

/-- Counterexample to claim C5: the address token `h@0` has a right part
that is not a positive integer, yet `replicaCount` does not default to 1:
`"0".parse::<usize>()` succeeds with 0, so the constructed endpoint
violates `replicaCount ≥ 1`. -/
theorem url_token_zero_replicas_counterexample :
    parseUrlToken (("h@0").toList) = (['h'], 0) ∧
    ¬ 1 ≤ (parseUrlToken (("h@0").toList)).2 := by decide

/-- Claim C5 (amended): parsing splits on the first `@`; the part left of
the `@` is the address; the right part becomes the replica count whenever
it parses as a usize — including `0`, so `replicaCount ≥ 1` is not
guaranteed — and in every other case (no `@`, or a right part that fails
usize parsing) the count defaults to 1. -/
theorem url_token_split_on_first_at :
    ∀ (l r : List Char), '@' ∉ l →
      parseUrlToken (l ++ '@' :: r) = (l, (parseUsize r).getD 1) ∧
      parseUrlToken l = (l, 1) := by
  intro l r hl
  constructor
  · unfold parseUrlToken
    rw [splitOnce_first '@' l r hl]
    rfl
  · unfold parseUrlToken
    rw [splitOnce_of_not_mem '@' l hl]
    rfl

/-- Witness for C5 (amended) on `h@2` and `h`. -/
theorem url_token_split_witness :
    parseUrlToken (("h@2").toList) = (['h'], 2) ∧
    parseUrlToken (("h").toList) = (['h'], 1) :=
  ⟨(url_token_split_on_first_at ['h'] ['2'] (by decide)).1,
    (url_token_split_on_first_at ['h'] ['2'] (by decide)).2⟩

/-- Claim C6: the pool built from `[A@2, B@1]` has length 3 and the
positional assignment is `pool[index mod 3]` — A, A, B, then wrapping back
to A — and is invariant under shifting the index by the pool length, with
no state other than the index and the pool contents. -/
theorem pool_assignment_determinism :
    poolAB.length = 3 ∧
    assign poolAB 0 = some clientA ∧
    assign poolAB 1 = some clientA ∧
    assign poolAB 2 = some clientB ∧
    assign poolAB 3 = some clientA ∧
    ∀ i : Nat, assign poolAB (i + 3) = assign poolAB i := by
  refine ⟨by decide, by decide, by decide, by decide, by decide, fun i => ?_⟩
  have h3 : poolAB.length = 3 := by decide
  unfold assign
  rw [h3, Nat.add_mod_right]

/-- Claim C9: page-range validation rejects `pageStart = 0`, rejects
`pageEnd < pageStart`, and rejects `pageEnd` above the total page count,
each with the corresponding configuration error, before the dispatch loop
that spawns jobs is ever entered. -/
theorem page_range_validation_rejections (pc s e : Nat) (eArg : Option Nat) :
    validatePageRange pc (some 0) eArg = Except.error errPageStartZero ∧
    (¬ s = 0 → e < s →
      validatePageRange pc (some s) (some e) =
        Except.error errPageEndLtStart) ∧
    (¬ s = 0 → s ≤ e → pc < e →
      validatePageRange pc (some s) (some e) =
        Except.error errPageEndGtCount) := by
  refine ⟨rfl, ?_, ?_⟩
  · intro hs he
    simp [validatePageRange, hs, he]
  · intro hs hse hpc
    simp [validatePageRange, hs, Nat.not_lt.mpr hse, hpc]

/-- Witness for C9: a five-page document rejects start 0, the range [2,1]
and the range [1,6]. -/
theorem page_range_validation_witness :
    validatePageRange 5 (some 0) none = Except.error errPageStartZero ∧
    validatePageRange 5 (some 2) (some 1) = Except.error errPageEndLtStart ∧
    validatePageRange 5 (some 1) (some 6) = Except.error errPageEndGtCount :=
  ⟨(page_range_validation_rejections 5 2 1 none).1,
    (page_range_validation_rejections 5 2 1 none).2.1 (by decide) (by decide),
    (page_range_validation_rejections 5 1 6 none).2.2 (by decide) (by decide)
      (by decide)⟩
